import Mathlib

/-!
Verification of the log-record formatters in `jina/logging/formatter.py`:
`ColorFormatter`, `PlainFormatter`, `JsonFormatter` and `ProfileFormatter`.

Python values that flow through the formatters are modelled by `PyVal`;
dict objects live in an explicit `Heap`, so the aliasing created by
`copy.copy` (a shallow copy shares the dict that `record.msg` points at)
is visible.  The CSI-stripping regular expression, `%`-style template
substitution and `json.dumps` (sorted keys, default separators,
`ensure_ascii` escaping) are embedded operationally.
-/

namespace JinaLog

/-- The ASCII escape character `0x1b` (ESC), written `\u001b` in the source regex. -/
def escChar : Char := Char.ofNat 27

/-- Final byte of an ANSI CSI sequence: the regex character class `[@-~]` (0x40 to 0x7e). -/
def isCSIFinal (c : Char) : Bool := Char.ofNat 64 ≤ c && c ≤ Char.ofNat 126

/-- Scanner for the lazy body `.*?[@-~]` of the source regex `\u001b\[.*?[@-~]`:
returns the index of the first final byte, failing at a newline
(Python `.` does not match a newline). -/
def csiScan : List Char → Option Nat
  | [] => none
  | c :: cs =>
    if isCSIFinal c then some 0
    else if c = Char.ofNat 10 then none
    else (csiScan cs).map (· + 1)

/-- Length of the (lazy, leftmost) match of `\u001b\[.*?[@-~]` anchored at the head
of the list, or `none` when the regex does not match there. -/
def csiMatchLen : List Char → Option Nat
  | c1 :: c2 :: rest =>
    if c1 = escChar ∧ c2 = '[' then (csiScan rest).map (· + 3) else none
  | _ => none

/-- Embedding of `re.sub(r'\u001b\[.*?[@-~]', '', s)` on a list of characters:
a single left-to-right scan removing each leftmost non-overlapping match. -/
def reSubCSI : List Char → List Char
  | [] => []
  | c :: cs =>
    match csiMatchLen (c :: cs) with
    | some k => reSubCSI (cs.drop (k - 1))
    | none => c :: reSubCSI cs
termination_by l => l.length
decreasing_by
  all_goals simp [List.length_drop]
  omega

/-- Whether the character list contains a match of the CSI regex anywhere. -/
def hasCSI : List Char → Bool
  | [] => false
  | c :: cs => (csiMatchLen (c :: cs)).isSome || hasCSI cs

/-- String-level wrapper for the CSI-stripping substitution. -/
def stripCSI (s : String) : String := String.mk (reSubCSI s.data)

/-- Model of the Python values that reach the formatters: strings, integers,
dict objects (a reference into the explicit heap) and objects that are not
JSON-serializable. -/
inductive PyVal where
  | str (s : String)
  | int (n : Int)
  | dictRef (r : Nat)
  | obj (id : Nat)
deriving DecidableEq

/-- Python `d[k] = v` on an association list: replace the value in place when the
key exists, otherwise append the new entry. -/
def dictSet (kvs : List (String × PyVal)) (k : String) (v : PyVal) :
    List (String × PyVal) :=
  if kvs.any (fun p => p.1 = k) then
    kvs.map (fun p => if p.1 = k then (k, v) else p)
  else kvs ++ [(k, v)]

/-- Python `d.update(pairs)`: set each pair in order. -/
def dictUpdate (kvs : List (String × PyVal)) (pairs : List (String × PyVal)) :
    List (String × PyVal) :=
  pairs.foldl (fun acc p => dictSet acc p.1 p.2) kvs

/-- First-match lookup in an association list (Python attribute/dict lookup;
keys are unique in well-formed records and dicts). -/
def assocLookup (k : String) : List (String × PyVal) → Option PyVal
  | [] => none
  | p :: rest => if p.1 = k then some p.2 else assocLookup k rest

/-- Heap of dict objects; `PyVal.dictRef i` points at slot `i`. -/
structure Heap where
  dicts : List (List (String × PyVal))
deriving DecidableEq

/-- Read the dict stored at slot `i`. -/
def Heap.getDict (h : Heap) (i : Nat) : Option (List (String × PyVal)) :=
  h.dicts[i]?

/-- Overwrite the dict stored at slot `i` (in-place mutation of a dict object). -/
def Heap.setDict (h : Heap) (i : Nat) (d : List (String × PyVal)) : Heap :=
  ⟨h.dicts.set i d⟩

/-- A LogRecord, given by its attribute dictionary.  `copy.copy` copies this
top-level association list; dict-valued attributes stay shared through their
`dictRef`, which is exactly what makes the shallow-copy aliasing observable. -/
structure LogRecord where
  fields : List (String × PyVal)
deriving DecidableEq

/-- Python `getattr(record, k)` (`none` models `AttributeError`). -/
def LogRecord.getAttr (r : LogRecord) (k : String) : Option PyVal :=
  assocLookup k r.fields

/-- Python `record.k = v` on the (copied) record. -/
def LogRecord.setAttr (r : LogRecord) (k : String) (v : PyVal) : LogRecord :=
  ⟨dictSet r.fields k v⟩

/-- Keys of a record's attribute dictionary have no duplicates. -/
def LogRecord.wf (r : LogRecord) : Prop := (r.fields.map Prod.fst).Nodup

/-- Fuel used when rendering or serializing dicts through the heap: one more
than the number of heap slots, enough to expand any acyclic chain. -/
def reprFuel (h : Heap) : Nat := h.dicts.length + 1

/-- Minimal Python `repr` escaping for strings: backslash, single quote and
newline (the characters that occur in this development). -/
def strReprChar (c : Char) : List Char :=
  if c = '\\' then ['\\', '\\']
  else if c = Char.ofNat 39 then ['\\', Char.ofNat 39]
  else if c = Char.ofNat 10 then ['\\', 'n']
  else [c]

/-- Python `repr` of a string: single-quoted with minimal escaping. -/
def strRepr (s : String) : String :=
  String.mk (Char.ofNat 39 :: (s.data.map strReprChar).flatten ++ [Char.ofNat 39])

/-- Join rendered entries with the separator `", "` (the `json.dumps` default
item separator, also used by Python dict repr). -/
def joinComma : List String → String
  | [] => ""
  | [s] => s
  | s :: rest => s ++ ", " ++ joinComma rest

/-- Python `repr` for modelled values.  Dict nesting is bounded by fuel; the
fuel-0 rendering mirrors the `{...}` Python prints for circular dicts. -/
def pyRepr (fuel : Nat) (h : Heap) : PyVal → String
  | .str s => strRepr s
  | .int n => toString n
  | .obj i => "<object " ++ toString i ++ ">"
  | .dictRef i =>
    match fuel with
    | 0 => "\x7b...\x7d"
    | f + 1 =>
      match h.getDict i with
      | none => "\x7b?\x7d"
      | some kvs =>
        "\x7b" ++
          joinComma (kvs.map (fun p => strRepr p.1 ++ ": " ++ pyRepr f h p.2)) ++
          "\x7d"
termination_by fuel

/-- Python `str` for modelled values: identity on strings, `repr` otherwise. -/
def pyStr (fuel : Nat) (h : Heap) (v : PyVal) : String :=
  match v with
  | .str s => s
  | w => pyRepr fuel h w

/-- Errors a formatting call can raise in Python. -/
inductive PyErr where
  | attributeError
  | keyError
  | formatError
  | notSerializable
  | circularRef
  | badRef
deriving DecidableEq

/-- Hexadecimal digit character (lower case, as Python `json` emits). -/
def hexDigit (n : Nat) : Char :=
  if n < 10 then Char.ofNat (48 + n) else Char.ofNat (87 + n)

/-- Four-digit hexadecimal rendering used inside `\uXXXX` escapes. -/
def hex4 (n : Nat) : List Char :=
  [hexDigit (n / 4096 % 16), hexDigit (n / 256 % 16),
   hexDigit (n / 16 % 16), hexDigit (n % 16)]

/-- JSON string escaping as Python `json.dumps` does with `ensure_ascii=True`:
short escapes for quote, backslash and common controls, `\uXXXX` for other
controls and for all non-ASCII characters (surrogate pairs beyond the BMP). -/
def jsonEscapeChar (c : Char) : List Char :=
  if c = Char.ofNat 34 then ['\\', Char.ofNat 34]
  else if c = '\\' then ['\\', '\\']
  else if c = Char.ofNat 8 then ['\\', 'b']
  else if c = Char.ofNat 9 then ['\\', 't']
  else if c = Char.ofNat 10 then ['\\', 'n']
  else if c = Char.ofNat 12 then ['\\', 'f']
  else if c = Char.ofNat 13 then ['\\', 'r']
  else if c.toNat < 32 ∨ c.toNat > 126 then
    if c.toNat < 65536 then '\\' :: 'u' :: hex4 c.toNat
    else
      let v := c.toNat - 65536
      ('\\' :: 'u' :: hex4 (55296 + v / 1024)) ++
        ('\\' :: 'u' :: hex4 (56320 + v % 1024))
  else [c]

/-- JSON rendering of a string value. -/
def jsonQuote (s : String) : String :=
  String.mk (Char.ofNat 34 :: (s.data.map jsonEscapeChar).flatten ++ [Char.ofNat 34])

/-- Key order used by `json.dumps(..., sort_keys=True)`: sort entries by key. -/
def sortByKey (kvs : List (String × PyVal)) : List (String × PyVal) :=
  List.insertionSort (fun p q => p.1 ≤ q.1) kvs

mutual
/-- Serialization of one value by `json.dumps`: strings are quoted, ints printed
in decimal, dict objects rendered recursively (fuel bounds the depth, erring on
circular structures as Python does) and any other object raises `TypeError`. -/
def dumpVal (fuel : Nat) (h : Heap) : PyVal → Except PyErr String
  | .str s => .ok (jsonQuote s)
  | .int n => .ok (toString n)
  | .obj _ => .error .notSerializable
  | .dictRef i =>
    match fuel with
    | 0 => .error .circularRef
    | f + 1 =>
      match h.getDict i with
      | none => .error .badRef
      | some kvs =>
        match dumpEntries f h (sortByKey kvs) with
        | .ok parts => .ok ("\x7b" ++ joinComma parts ++ "\x7d")
        | .error e => .error e
termination_by _v => (fuel, 0)

/-- Serialization of the (already key-sorted) entries of a JSON object. -/
def dumpEntries (fuel : Nat) (h : Heap) : List (String × PyVal) → Except PyErr (List String)
  | [] => .ok []
  | p :: rest =>
    match dumpVal fuel h p.2 with
    | .error e => .error e
    | .ok sv =>
      match dumpEntries fuel h rest with
      | .error e => .error e
      | .ok tail => .ok ((jsonQuote p.1 ++ ": " ++ sv) :: tail)
termination_by l => (fuel, l.length + 1)
end

/-- Render a key-sorted mapping as the single-line JSON object string that
`json.dumps(m, sort_keys=True)` produces. -/
def dumpObj (fuel : Nat) (h : Heap) (kvs : List (String × PyVal)) :
    Except PyErr String :=
  match dumpEntries fuel h (sortByKey kvs) with
  | .ok parts => .ok ("\x7b" ++ joinComma parts ++ "\x7d")
  | .error e => .error e

mutual
/-- Embedding of `%`-style template substitution as used by
`logging.Formatter` (`fmt % record.__dict__`), restricted to the `%(name)s`
placeholders and `%%` escapes that the formatters' templates use; any other
conversion raises.  `f` resolves a field name to its already-rendered `%s`
text (Python applies `str()` to the value). -/
def pyFmtAux (f : String → Option String) : List Char → Except PyErr (List Char)
  | [] => .ok []
  | c :: rest =>
    if c = '%' then
      match rest with
      | [] => .error .formatError
      | c2 :: rest2 =>
        if c2 = '%' then
          match pyFmtAux f rest2 with
          | .ok tail => .ok ('%' :: tail)
          | .error e => .error e
        else if c2 = '(' then scanName f [] rest2
        else .error .formatError
    else
      match pyFmtAux f rest with
      | .ok tail => .ok (c :: tail)
      | .error e => .error e
termination_by l => l.length

/-- Scanner for the field name of a `%(name)s` placeholder: consume up to the
closing parenthesis, require the `s` conversion, look the name up and splice
its text before the rendering of the remaining template. -/
def scanName (f : String → Option String) (acc : List Char) :
    List Char → Except PyErr (List Char)
  | [] => .error .formatError
  | d :: rest =>
    if d = ')' then
      match rest with
      | [] => .error .formatError
      | conv :: rest3 =>
        if conv = 's' then
          match f (String.mk acc) with
          | some v =>
            match pyFmtAux f rest3 with
            | .ok tail => .ok (v.data ++ tail)
            | .error e => .error e
          | none => .error .keyError
        else .error .formatError
    else scanName f (acc ++ [d]) rest
termination_by l => l.length
end

/-- String-level wrapper for `%`-style substitution. -/
def pyFormat (fmt : String) (f : String → Option String) : Except PyErr String :=
  match pyFmtAux f fmt.data with
  | .ok out => .ok (String.mk out)
  | .error e => .error e

/-- Default logging template `'%(message)s'`, used when a formatter is
constructed without an explicit format string. -/
def defaultFmt : String := "%(message)s"

/-- Embedding of the base `logging.Formatter.format` (without date or
exception handling, which the templates here do not use): compute
`record.message = str(record.msg)` — an `AttributeError` when `msg` is
absent — then substitute the template against the record's attributes,
each value rendered with `str()`. -/
def formatRecord (fmt : String) (h : Heap) (r : LogRecord) : Except PyErr String :=
  match r.getAttr "msg" with
  | none => .error .attributeError
  | some m =>
    pyFormat fmt (fun k =>
      if k = "message" then some (pyStr (reprFuel h) h m)
      else (r.getAttr k).map (pyStr (reprFuel h) h))

/-- Style directive attached to a severity level: a color name and emphasis
attributes (`ColorFormatter.MAPPING` values, e.g. `dict(color='red',
attrs=['bold'])`). -/
structure Style where
  color : Option String
  attrs : List String
deriving DecidableEq

/-- Modelled from the spec: the ANSI SGR codes (decimal, as they appear inside
the escape sequence) behind the color names and the `bold` attribute used by
`jina.helper.colored`, which is not under `src/`. -/
def ansiCode (name : String) : String :=
  if name = "black" then "30"
  else if name = "red" then "31"
  else if name = "green" then "32"
  else if name = "yellow" then "33"
  else if name = "bold" then "1"
  else "0"

/-- ANSI style codes emitted in front of the wrapped text: the color code (if
any) followed by one code per emphasis attribute. -/
def styleCodes (st : Style) : String :=
  (match st.color with
   | some c => "\x1b[" ++ ansiCode c ++ "m"
   | none => "") ++
  String.join (st.attrs.map (fun a => "\x1b[" ++ ansiCode a ++ "m"))

/-- Reset sequence appended after styled text. -/
def resetCode : String := "\x1b[0m"

/-- Modelled from the spec: `jina.helper.colored` (not under `src/`) wraps the
whole text in the style's ANSI codes and appends a reset. -/
def colored (text : String) (st : Style) : String :=
  styleCodes st ++ text ++ resetCode

/-- Modelled from the spec: `jina.enums.LogVerbosity` (not under `src/`) has
the six mapped severity levels DEBUG, INFO, SUCCESS, WARNING, ERROR, CRITICAL;
numeric values follow the logging convention with SUCCESS between INFO and
WARNING.  This is `ColorFormatter.MAPPING`, the level-to-style table. -/
def MAPPING : List (Int × Style) :=
  [(10, ⟨some "black", ["bold"]⟩),
   (20, ⟨none, []⟩),
   (25, ⟨some "green", []⟩),
   (30, ⟨some "yellow", []⟩),
   (40, ⟨some "red", []⟩),
   (50, ⟨some "red", ["bold"]⟩)]

/-- Lookup in the level-to-style table (Python `dict.get`, returning `None`
for an unmapped level). -/
def mapLookup (n : Int) : List (Int × Style) → Option Style
  | [] => none
  | p :: rest => if p.1 = n then some p.2 else mapLookup n rest

/-- Embedding of `ColorFormatter.__init__`: the per-level precompiled
formatter templates, each one the literal template string wrapped in the
level's style codes. -/
def colorFormatters (fmt : String) (lvl : Int) : Option String :=
  (mapLookup lvl MAPPING).map (fun st => colored fmt st)

/-- Embedding of `ColorFormatter.format`: look up the precompiled template for
`record.levelno` and apply standard substitution.  For an unmapped level the
lookup yields `None` and `formatter.format(record)` raises `AttributeError`
on `None`. -/
def colorFormat (fmt : String) (h : Heap) (r : LogRecord) :
    Except PyErr String × Heap :=
  match r.getAttr "levelno" with
  | some (.int lvl) =>
    match colorFormatters fmt lvl with
    | some ctmpl => (formatRecord ctmpl h r, h)
    | none => (.error .attributeError, h)
  | _ => (.error .attributeError, h)

/-- The message processing of `PlainFormatter.format`: when `msg` is a string,
strip CSI sequences and truncate to 512 characters
(`re.sub(r'\u001b\[.*?[@-~]', '', str(cr.msg))[:512]`); other message types
are left untouched. -/
def plainProcessMsg : PyVal → PyVal
  | .str s => .str (String.mk ((reSubCSI s.data).take 512))
  | v => v

/-- Embedding of `PlainFormatter.format`: shallow-copy the record, rewrite a
string-typed `msg` on the copy, then delegate to the base `Formatter`. -/
def plainFormat (fmt : String) (h : Heap) (r : LogRecord) :
    Except PyErr String × Heap :=
  match r.getAttr "msg" with
  | none => (.error .attributeError, h)
  | some m => (formatRecord fmt h (r.setAttr "msg" (plainProcessMsg m)), h)

/-- The key allow-list `JsonFormatter.KEYS` (set literal in the source; its
iteration order is irrelevant because the output is key-sorted). -/
def jsonKEYS : List String :=
  ["created", "filename", "funcName", "levelname", "lineno", "msg", "module",
   "name", "pathname", "process", "thread", "processName", "threadName",
   "log_id"]

/-- The dict comprehension `{k: getattr(cr, k) for k in KEYS if hasattr(cr, k)}`. -/
def jsonMapping (r : LogRecord) : List (String × PyVal) :=
  jsonKEYS.filterMap (fun k => (r.getAttr k).map (fun v => (k, v)))

/-- Embedding of `JsonFormatter.format`: shallow-copy the record, replace
`msg` by the CSI-stripped `str()` of the original message (whatever its type),
then `json.dumps` the allow-listed attributes with sorted keys. -/
def jsonFormat (h : Heap) (r : LogRecord) : Except PyErr String × Heap :=
  match r.getAttr "msg" with
  | none => (.error .attributeError, h)
  | some m =>
    let cr := r.setAttr "msg" (.str (stripCSI (pyStr (reprFuel h) h m)))
    (dumpObj (reprFuel h) h (jsonMapping cr), h)

/-- The dict comprehension `{k: getattr(cr, k) for k in [...]}` used by
`ProfileFormatter`: each listed attribute, failing (`AttributeError`) when one
is missing — evaluated completely before any mutation happens. -/
def getAttrs (r : LogRecord) : List String → Option (List (String × PyVal))
  | [] => some []
  | k :: rest =>
    match r.getAttr k with
    | none => none
    | some v => (getAttrs r rest).map (fun tail => (k, v) :: tail)

/-- Embedding of `ProfileFormatter.format`.  `memVal` stands for
`used_memory(unit=1)`; modelled from the spec, since `jina.logging.profile`
is not under `src/`: the current resident memory usage in bytes, obtained from
an external memory-introspection collaborator.  When the (shared!) message
dict is present it is updated in place with four record attributes and the
memory reading, then serialized; otherwise the result is the empty string. -/
def profileFormat (memVal : Int) (h : Heap) (r : LogRecord) :
    Except PyErr String × Heap :=
  match r.getAttr "msg" with
  | none => (.error .attributeError, h)
  | some (.dictRef i) =>
    match h.getDict i with
    | none => (.error .badRef, h)
    | some kvs =>
      match getAttrs r ["created", "module", "process", "thread"] with
      | none => (.error .attributeError, h)
      | some pairs =>
        let kvs2 := dictSet (dictUpdate kvs pairs) "memory" (.int memVal)
        let h2 := h.setDict i kvs2
        (dumpObj (reprFuel h2) h2 kvs2, h2)
  | some _ => (.ok "", h)

/-! General lemmas about the embedded operations. -/

/-- A list without the escape character has no CSI match at its head. -/
theorem csiMatchLenNoneOfNoEsc {l : List Char} (hl : ∀ c ∈ l, c ≠ escChar) :
    csiMatchLen l = none := by
  match l with
  | [] => rfl
  | [c] => rfl
  | c1 :: c2 :: rest =>
    have h1 : c1 ≠ escChar := hl c1 (by simp)
    simp [csiMatchLen, h1]

/-- Stripping CSI sequences from text without the escape character is the
identity. -/
theorem reSubCSINoEsc {l : List Char} (hl : ∀ c ∈ l, c ≠ escChar) :
    reSubCSI l = l := by
  induction l with
  | nil => simp [reSubCSI]
  | cons c cs ih =>
    rw [reSubCSI, csiMatchLenNoneOfNoEsc hl]
    have hcs : ∀ d ∈ cs, d ≠ escChar := fun d hd => hl d (by simp [hd])
    rw [ih hcs]

/-- Rebuilding a string from its characters is the identity. -/
theorem stringMkData (s : String) : String.mk s.data = s := rfl

/-- Template substitution maps a placeholder-free literal segment straight to
the output. -/
theorem pyFmtAuxLit (f : String → Option String) (lit rest : List Char)
    (hlit : ∀ c ∈ lit, c ≠ '%') :
    pyFmtAux f (lit ++ rest) =
      match pyFmtAux f rest with
      | .ok tail => .ok (lit ++ tail)
      | .error e => .error e := by
  induction lit with
  | nil =>
    cases hr : pyFmtAux f rest <;> simp [hr]
  | cons c cs ih =>
    have hc : c ≠ '%' := hlit c (by simp)
    have hcs : ∀ d ∈ cs, d ≠ '%' := fun d hd => hlit d (by simp [hd])
    have hstep : pyFmtAux f (c :: (cs ++ rest)) =
        match pyFmtAux f (cs ++ rest) with
        | .ok tail => .ok (c :: tail)
        | .error e => .error e := by
      rw [pyFmtAux.eq_def]
      simp [hc]
    rw [List.cons_append, hstep, ih hcs]
    cases hr : pyFmtAux f rest <;> simp

/-- Substitution on placeholder-free text returns it unchanged. -/
theorem pyFmtAuxLitOnly (f : String → Option String) (l : List Char)
    (hl : ∀ c ∈ l, c ≠ '%') : pyFmtAux f l = .ok l := by
  have h0 : pyFmtAux f ([] : List Char) = .ok [] := by rw [pyFmtAux.eq_def]
  have h1 := pyFmtAuxLit f l [] hl
  rw [h0] at h1
  simpa using h1

/-- Scanning a placeholder name consumes its parenthesis-free characters. -/
theorem scanNameShift (f : String → Option String) (name : List Char)
    (hname : ∀ c ∈ name, c ≠ ')') :
    ∀ (acc rest : List Char),
      scanName f acc (name ++ rest) = scanName f (acc ++ name) rest := by
  induction name with
  | nil => intro acc rest; simp
  | cons c cs ih =>
    intro acc rest
    have hc : c ≠ ')' := hname c (by simp)
    have hcs : ∀ d ∈ cs, d ≠ ')' := fun d hd => hname d (by simp [hd])
    have hstep : scanName f acc (c :: (cs ++ rest)) =
        scanName f (acc ++ [c]) (cs ++ rest) := by
      rw [scanName.eq_def]
      simp [hc]
    rw [List.cons_append, hstep, ih hcs]
    simp

/-- Full rendering of a template of the shape
`literal ++ "%(message)s" ++ literal` — the shape every formatter template in
this development has — when the `message` field resolves. -/
theorem pyFmtAuxMessageTemplate (f : String → Option String) (cs rs : List Char)
    (s : String) (hcs : ∀ c ∈ cs, c ≠ '%') (hrs : ∀ c ∈ rs, c ≠ '%')
    (hf : f "message" = some s) :
    pyFmtAux f (cs ++ ('%' :: '(' :: ("message".data ++ ')' :: 's' :: rs))) =
      .ok (cs ++ s.data ++ rs) := by
  rw [pyFmtAuxLit f cs _ hcs]
  have h1 : pyFmtAux f ('%' :: '(' :: ("message".data ++ ')' :: 's' :: rs)) =
      scanName f [] ("message".data ++ ')' :: 's' :: rs) := by
    rw [pyFmtAux.eq_def]
    simp
  have h2 : scanName f [] ("message".data ++ ')' :: 's' :: rs) =
      match pyFmtAux f rs with
      | .ok tail => .ok (s.data ++ tail)
      | .error e => .error e := by
    rw [scanNameShift f "message".data (by decide) [] (')' :: 's' :: rs)]
    rw [scanName.eq_def]
    simp [stringMkData, hf]
  rw [h1, h2, pyFmtAuxLitOnly f rs hrs]
  simp [List.append_assoc]

/-- The base formatter with the default template renders exactly
`str(record.msg)`. -/
theorem formatRecordDefault (h : Heap) (r : LogRecord) (m : PyVal)
    (hm : r.getAttr "msg" = some m) :
    formatRecord defaultFmt h r = .ok (pyStr (reprFuel h) h m) := by
  simp only [formatRecord, hm]
  have hd : defaultFmt.data =
      [] ++ ('%' :: '(' :: ("message".data ++ ')' :: 's' :: ([] : List Char))) := rfl
  simp only [pyFormat, hd]
  rw [pyFmtAuxMessageTemplate _ [] [] (pyStr (reprFuel h) h m)
    (by simp) (by simp) (by simp)]
  simp [stringMkData]

/-- Lookup after the replacement pass of `dictSet`, at a different key. -/
theorem assocLookupMapSetNe (l : List (String × PyVal)) {k k' : String}
    (v : PyVal) (hne : k' ≠ k) :
    assocLookup k' (l.map (fun p => if p.1 = k then (k, v) else p)) =
      assocLookup k' l := by
  induction l with
  | nil => simp [assocLookup]
  | cons p rest ih =>
    by_cases hp : p.1 = k
    · have hkk : ¬k = k' := fun hk => hne hk.symm
      simp [assocLookup, hp, hkk, ih]
    · by_cases hpk : p.1 = k'
      · simp [assocLookup, hp, hpk, hne]
      · simp [assocLookup, hp, hpk, ih]

/-- Lookup after the append pass of `dictSet`, at a different key. -/
theorem assocLookupAppendNe (l : List (String × PyVal)) {k k' : String}
    (v : PyVal) (hne : k' ≠ k) :
    assocLookup k' (l ++ [(k, v)]) = assocLookup k' l := by
  induction l with
  | nil =>
    have hkk : ¬k = k' := fun hk => hne hk.symm
    simp [assocLookup, hkk]
  | cons p rest ih =>
    by_cases hpk : p.1 = k'
    · simp [assocLookup, hpk]
    · simp [assocLookup, hpk, ih]

/-- Setting one attribute leaves the others unchanged. -/
theorem assocLookupDictSetNe (l : List (String × PyVal)) {k k' : String}
    (v : PyVal) (hne : k' ≠ k) :
    assocLookup k' (dictSet l k v) = assocLookup k' l := by
  rw [dictSet]
  split
  · exact assocLookupMapSetNe l v hne
  · exact assocLookupAppendNe l v hne

/-- A successful lookup witnesses the key. -/
theorem anyOfLookupSome {l : List (String × PyVal)} {k : String} {v : PyVal}
    (hv : assocLookup k l = some v) :
    l.any (fun p => p.1 = k) = true := by
  induction l with
  | nil => simp [assocLookup] at hv
  | cons p rest ih =>
    by_cases hp : p.1 = k
    · simp [hp]
    · simp only [assocLookup, if_neg hp] at hv
      simp [hp, ih hv]

/-- Setting an attribute makes it readable. -/
theorem assocLookupDictSetSelf (l : List (String × PyVal)) (k : String)
    (v : PyVal) : assocLookup k (dictSet l k v) = some v := by
  rw [dictSet]
  split
  · rename_i hany
    induction l with
    | nil => simp at hany
    | cons p rest ih =>
      by_cases hp : p.1 = k
      · simp [assocLookup, hp]
      · simp only [List.any_cons, hp] at hany
        simp only [List.map_cons, if_neg hp, assocLookup, hp, if_false]
        exact ih (by simpa using hany)
  · rename_i hany
    induction l with
    | nil => simp [assocLookup]
    | cons p rest ih =>
      have hp : ¬p.1 = k := by
        intro hk
        exact hany (by simp [hk])
      have hrest : ¬rest.any (fun p => decide (p.1 = k)) = true := by
        intro hk
        exact hany (by simp [List.any_cons]; right; simpa using hk)
      simpa [assocLookup, hp] using ih hrest

/-- Overwriting an attribute with the value it already has (on a record whose
keys are duplicate-free) is the identity. -/
theorem dictSetSelfEq (l : List (String × PyVal)) (k : String) (v : PyVal)
    (hnd : (l.map Prod.fst).Nodup) (hv : assocLookup k l = some v) :
    dictSet l k v = l := by
  rw [dictSet, if_pos (by simpa using anyOfLookupSome hv)]
  induction l with
  | nil => simp [assocLookup] at hv
  | cons p rest ih =>
    simp only [List.map_cons, List.nodup_cons] at hnd
    by_cases hp : p.1 = k
    · simp only [assocLookup, if_pos hp] at hv
      have hv2 : p.2 = v := Option.some.inj hv
      have hrest : ∀ q ∈ rest, (if q.1 = k then (k, v) else q) = q := by
        intro q hq
        have hqk : ¬q.1 = k := by
          intro hk
          have hmem : p.1 ∈ rest.map Prod.fst := by
            rw [hp, ← hk]
            exact List.mem_map_of_mem Prod.fst hq
          exact hnd.1 hmem
        simp [hqk]
      rw [List.map_cons, if_pos hp, List.map_congr_left hrest, ← hp, ← hv2]
      simp
    · simp only [assocLookup, if_neg hp] at hv
      rw [List.map_cons, if_neg hp, ih hnd.2 hv]

/-- Record-level wrapper: a freshly set attribute reads back. -/
theorem getAttrSetAttrSelf (r : LogRecord) (k : String) (v : PyVal) :
    (r.setAttr k v).getAttr k = some v :=
  assocLookupDictSetSelf r.fields k v

/-- Record-level wrapper: setting one attribute leaves the others unchanged. -/
theorem getAttrSetAttrNe (r : LogRecord) {k k' : String} (v : PyVal)
    (hne : k' ≠ k) : (r.setAttr k v).getAttr k' = r.getAttr k' :=
  assocLookupDictSetNe r.fields v hne

/-- Record-level wrapper: rewriting an attribute with its own value is the
identity on well-formed records. -/
theorem setAttrSelfEq (r : LogRecord) {k : String} {v : PyVal} (hwf : r.wf)
    (hv : r.getAttr k = some v) : r.setAttr k v = r := by
  cases r with
  | mk fields =>
    simp only [LogRecord.setAttr, LogRecord.mk.injEq]
    exact dictSetSelfEq fields k v hwf hv

instance : IsTotal (String × PyVal) (fun p q => p.1 ≤ q.1) :=
  ⟨fun a b => le_total a.1 b.1⟩

instance : IsTrans (String × PyVal) (fun p q => p.1 ≤ q.1) :=
  ⟨fun _ _ _ hab hbc => le_trans hab hbc⟩

/-- Inserting an entry commutes with projecting keys. -/
theorem mapFstOrderedInsert (p : String × PyVal) (l : List (String × PyVal)) :
    (List.orderedInsert (fun p q => p.1 ≤ q.1) p l).map Prod.fst =
      List.orderedInsert (· ≤ ·) p.1 (l.map Prod.fst) := by
  induction l with
  | nil => rfl
  | cons q rest ih =>
    by_cases hle : p.1 ≤ q.1
    · simp only [List.orderedInsert, if_pos hle, List.map_cons]
    · simp only [List.orderedInsert, if_neg hle, List.map_cons]
      rw [ih]

/-- Sorting entries by key sorts the projected key list. -/
theorem mapFstSortByKey (l : List (String × PyVal)) :
    (sortByKey l).map Prod.fst = List.insertionSort (· ≤ ·) (l.map Prod.fst) := by
  induction l with
  | nil => rfl
  | cons p rest ih =>
    simp only [sortByKey, List.insertionSort, List.map_cons] at ih ⊢
    rw [mapFstOrderedInsert, ih]

/-- The keys of a key-sorted mapping are sorted. -/
theorem sortedKeysSortByKey (l : List (String × PyVal)) :
    List.Sorted (· ≤ ·) ((sortByKey l).map Prod.fst) := by
  rw [mapFstSortByKey]
  exact List.sorted_insertionSort _ _

/-- The keys kept by an allow-list comprehension are exactly the allow-listed
keys whose lookup succeeds. -/
theorem filterMapKeys (ks : List String) (g : String → Option PyVal) :
    (ks.filterMap (fun k => (g k).map (fun v => (k, v)))).map Prod.fst =
      ks.filter (fun k => (g k).isSome) := by
  induction ks with
  | nil => rfl
  | cons k rest ih =>
    cases hg : g k <;>
      simp [List.filterMap_cons, List.filter_cons, hg, ih]

/-- Keys of `jsonMapping`: the allow-listed keys present on the record. -/
theorem jsonMappingKeys (r : LogRecord) :
    (jsonMapping r).map Prod.fst =
      jsonKEYS.filter (fun k => (r.getAttr k).isSome) :=
  filterMapKeys jsonKEYS r.getAttr

/-- Key membership after a single dict assignment. -/
theorem memKeysDictSet (l : List (String × PyVal)) (k k' : String) (v : PyVal) :
    (k' ∈ (dictSet l k v).map Prod.fst) ↔ k' ∈ l.map Prod.fst ∨ k' = k := by
  rw [dictSet]
  split
  · rename_i hany
    have hmap : (l.map (fun p => if p.1 = k then (k, v) else p)).map Prod.fst =
        l.map Prod.fst := by
      rw [List.map_map]
      apply List.map_congr_left
      intro p _hp
      by_cases hpk : p.1 = k <;> simp [hpk]
    rw [hmap]
    constructor
    · exact Or.inl
    · intro hm
      rcases hm with hm | hm
      · exact hm
      · subst hm
        simp only [List.any_eq_true] at hany
        obtain ⟨p, hp, hpk⟩ := hany
        have : p.1 = k' := by simpa using hpk
        exact this ▸ List.mem_map_of_mem Prod.fst hp
  · simp [or_comm]

/-- Key membership after a dict update. -/
theorem memKeysDictUpdate (ps : List (String × PyVal)) (l : List (String × PyVal))
    (k' : String) :
    (k' ∈ (dictUpdate l ps).map Prod.fst) ↔
      k' ∈ l.map Prod.fst ∨ k' ∈ ps.map Prod.fst := by
  induction ps generalizing l with
  | nil => simp [dictUpdate]
  | cons p rest ih =>
    have hstep : dictUpdate l (p :: rest) = dictUpdate (dictSet l p.1 p.2) rest :=
      rfl
    rw [hstep, ih, memKeysDictSet]
    simp [or_assoc]

/-- The four-attribute comprehension keeps exactly the requested keys. -/
theorem getAttrsKeys (r : LogRecord) :
    ∀ (ks : List String) (ps : List (String × PyVal)),
      getAttrs r ks = some ps → ps.map Prod.fst = ks := by
  intro ks
  induction ks with
  | nil =>
    intro ps hps
    simp only [getAttrs, Option.some.injEq] at hps
    simp [← hps]
  | cons k rest ih =>
    intro ps hps
    simp only [getAttrs] at hps
    cases hr : r.getAttr k with
    | none => rw [hr] at hps; simp at hps
    | some v =>
      rw [hr] at hps
      cases ht : getAttrs r rest with
      | none => rw [ht] at hps; simp at hps
      | some tail =>
        rw [ht] at hps
        have hps2 : (k, v) :: tail = ps := by simpa using hps
        rw [← hps2]
        simp [ih tail ht]

/-- Objects are what `json.dumps` rejects. -/
theorem dumpValObjError (fuel : Nat) (h : Heap) (n : Nat) :
    dumpVal fuel h (PyVal.obj n) = .error .notSerializable := by
  rw [dumpVal.eq_def]

/-- Unfolding step for the entry serializer. -/
theorem dumpEntriesCons (fuel : Nat) (h : Heap) (p : String × PyVal)
    (rest : List (String × PyVal)) :
    dumpEntries fuel h (p :: rest) =
      match dumpVal fuel h p.2 with
      | .error e => .error e
      | .ok sv =>
        match dumpEntries fuel h rest with
        | .error e => .error e
        | .ok tail => .ok ((jsonQuote p.1 ++ ": " ++ sv) :: tail) := by
  rw [dumpEntries.eq_def]

/-- Serializing a mapping that contains a non-serializable value fails. -/
theorem dumpEntriesErrOfObj (fuel : Nat) (h : Heap) {l : List (String × PyVal)}
    {k : String} {n : Nat} (hm : (k, PyVal.obj n) ∈ l) :
    ∃ e, dumpEntries fuel h l = .error e := by
  induction l with
  | nil => simp at hm
  | cons p rest ih =>
    rw [dumpEntriesCons]
    rcases List.mem_cons.mp hm with hm | hm
    · have hp2 : p.2 = PyVal.obj n := by rw [← hm]
      rw [hp2, dumpValObjError]
      exact ⟨.notSerializable, rfl⟩
    · cases hdv : dumpVal fuel h p.2 with
      | error e => exact ⟨e, rfl⟩
      | ok sv =>
        obtain ⟨e, he⟩ := ih hm
        rw [he]
        exact ⟨e, rfl⟩

/-- Concatenating through `String.mk` agrees with string append. -/
theorem stringMkAppend (x y : String) : String.mk (x.data ++ y.data) = x ++ y := by
  rw [← String.data_append, stringMkData]

/-- The base formatter on a template `prefixText ++ '%(message)s' ++ suffixText`
whose literal parts contain no placeholder renders the literal parts around
`str(record.msg)`. -/
theorem formatRecordWrapped (csStr rsStr : String) (h : Heap) (r : LogRecord)
    (m : PyVal) (hcs : ∀ c ∈ csStr.data, c ≠ '%')
    (hrs : ∀ c ∈ rsStr.data, c ≠ '%') (hm : r.getAttr "msg" = some m) :
    formatRecord (csStr ++ defaultFmt ++ rsStr) h r =
      .ok (csStr ++ pyStr (reprFuel h) h m ++ rsStr) := by
  simp only [formatRecord, hm, pyFormat]
  have hd : (csStr ++ defaultFmt ++ rsStr).data =
      csStr.data ++ ('%' :: '(' :: ("message".data ++ ')' :: 's' :: rsStr.data)) := by
    rw [String.data_append, String.data_append, List.append_assoc]
    rfl
  rw [hd, pyFmtAuxMessageTemplate _ _ _ (pyStr (reprFuel h) h m) hcs hrs (by simp)]
  simp [← String.data_append, stringMkData]

/-- A successful style lookup comes from the table. -/
theorem mapLookupMem {n : Int} {l : List (Int × Style)} {sty : Style}
    (hl : mapLookup n l = some sty) : (n, sty) ∈ l := by
  induction l with
  | nil => simp [mapLookup] at hl
  | cons p rest ih =>
    by_cases hp : p.1 = n
    · simp only [mapLookup, if_pos hp] at hl
      have hps : (n, sty) = p := by
        rw [← hp, ← Option.some.inj hl]
      rw [hps]
      exact List.mem_cons_self p rest
    · simp only [mapLookup, if_neg hp] at hl
      exact List.mem_cons_of_mem p (ih hl)

/-! Concrete fixtures shared by witnesses and counterexamples. -/

/-- Heap with no dict objects. -/
def hEmpty : Heap := ⟨[]⟩

/-! The claims. -/

/-- C3: `PlainFormatter` truncates a string-typed message to at most 512
characters as a hard character cap applied after CSI stripping (not
word-aware); in particular a 600-character message containing no escape
characters formats, under the message-only template, to a message portion of
length exactly 512. -/
theorem C3_plain_truncation (h : Heap) (r : LogRecord) (s : String)
    (hm : r.getAttr "msg" = some (.str s)) (hlen : s.data.length = 600)
    (hesc : ∀ c ∈ s.data, c ≠ escChar) :
    plainFormat defaultFmt h r = (.ok (String.mk (s.data.take 512)), h) ∧
    (String.mk (s.data.take 512)).data.length = 512 := by
  constructor
  · simp only [plainFormat, hm, plainProcessMsg]
    rw [reSubCSINoEsc hesc]
    rw [formatRecordDefault h _ _ (getAttrSetAttrSelf r "msg" _)]
    simp [pyStr]
  · simp [List.length_take, hlen]

/-- Witness for C3 at a concrete 600-character message. -/
theorem C3_plain_truncation_witness :
    plainFormat defaultFmt hEmpty
        ⟨[("msg", PyVal.str (String.mk (List.replicate 600 'a')))]⟩ =
      (.ok (String.mk (List.replicate 512 'a')), hEmpty) ∧
    (String.mk (List.replicate 512 'a')).data.length = 512 := by
  have h3 := C3_plain_truncation hEmpty
      ⟨[("msg", PyVal.str (String.mk (List.replicate 600 'a')))]⟩
      (String.mk (List.replicate 600 'a'))
      rfl
      (by
        rw [show (String.mk (List.replicate 600 'a')).data =
          List.replicate 600 'a' from rfl]
        rw [List.length_replicate])
      (by
        intro c hc
        rw [List.eq_of_mem_replicate hc]
        decide)
  rw [List.take_replicate] at h3
  rw [show (512 ⊓ 600 : Nat) = 512 from by norm_num] at h3
  exact h3

/-- Shared helper: the profile formatter's non-mapping path returns the empty
string and leaves the heap alone. -/
theorem profileSkipNonDict (memVal : Int) (h : Heap) (r : LogRecord) (m : PyVal)
    (hm : r.getAttr "msg" = some m) (hnd : ∀ i, m ≠ PyVal.dictRef i) :
    profileFormat memVal h r = (.ok "", h) := by
  cases m with
  | str s => simp [profileFormat, hm]
  | int n => simp [profileFormat, hm]
  | obj i => simp [profileFormat, hm]
  | dictRef i => exact absurd rfl (hnd i)

/-- C5: `ProfileFormatter.format` returns exactly the empty string — a
deliberate skip, not an error — for every record whose message is not a
structured mapping. -/
theorem C5_profile_skip (memVal : Int) (h : Heap) (r : LogRecord) (m : PyVal)
    (hm : r.getAttr "msg" = some m) (hnd : ∀ i, m ≠ PyVal.dictRef i) :
    profileFormat memVal h r = (.ok "", h) :=
  profileSkipNonDict memVal h r m hm hnd

/-- Witness for C5 at the message `"plain text"`. -/
theorem C5_profile_skip_witness :
    profileFormat 0 hEmpty ⟨[("msg", PyVal.str "plain text")]⟩ =
      (.ok "", hEmpty) :=
  C5_profile_skip 0 hEmpty _ _ rfl (fun _i hi => by cases hi)

/-- C8: for a record whose level is not one of the six mapped severity
levels, `ColorFormatter.format` fails with the unhandled lookup (the `None`
returned by `dict.get` raises `AttributeError`); it returns no formatted
string and applies no fallback styling. -/
theorem C8_unmapped_level (fmt : String) (h : Heap) (r : LogRecord) (lvl : Int)
    (hl : r.getAttr "levelno" = some (.int lvl))
    (hmap : mapLookup lvl MAPPING = none) :
    colorFormat fmt h r = (.error .attributeError, h) := by
  simp [colorFormat, hl, colorFormatters, hmap]

/-- Witness for C8 at the unmapped numeric level 35. -/
theorem C8_unmapped_level_witness :
    colorFormat defaultFmt hEmpty
        ⟨[("levelno", PyVal.int 35), ("msg", PyVal.str "x")]⟩ =
      (.error .attributeError, hEmpty) :=
  C8_unmapped_level defaultFmt hEmpty _ 35 rfl (by decide)

/-- C9: for a non-string message, `PlainFormatter.format` leaves the message
untouched (no CSI stripping and no truncation) and still performs standard
field substitution on the copy — which, the message being unchanged, renders
exactly like the base formatter on the original record. -/
theorem C9_plain_nonstring (fmt : String) (h : Heap) (r : LogRecord) (m : PyVal)
    (hwf : r.wf) (hm : r.getAttr "msg" = some m) (hns : ∀ s, m ≠ PyVal.str s) :
    plainFormat fmt h r = (formatRecord fmt h r, h) := by
  simp only [plainFormat, hm]
  have hpm : plainProcessMsg m = m := by
    cases m with
    | str s => exact absurd rfl (hns s)
    | int n => rfl
    | dictRef i => rfl
    | obj i => rfl
  rw [hpm, setAttrSelfEq r hwf hm]

/-- Witness for C9 at a record whose message is a dict object. -/
theorem C9_plain_nonstring_witness :
    plainFormat defaultFmt ⟨[[("event", PyVal.str "x")]]⟩
        ⟨[("msg", PyVal.dictRef 0)]⟩ =
      (formatRecord defaultFmt ⟨[[("event", PyVal.str "x")]]⟩
        ⟨[("msg", PyVal.dictRef 0)]⟩, ⟨[[("event", PyVal.str "x")]]⟩) :=
  C9_plain_nonstring defaultFmt _ _ _ (by simp [LogRecord.wf]) rfl
    (fun _s hs => by cases hs)

/-- C2 (bug evaluation): the single substitution pass of
`re.sub(r'\u001b\[.*?[@-~]', '', ...)` can leave a complete CSI sequence in
the output.  Stripping the 6-character message `ESC ESC [ m [ m` removes only
the middle `ESC [ m`; the juxtaposed remainder `ESC [ m` is itself a CSI
sequence, so the formatted message still contains one, contradicting the
formatter's own documented intent of removing all control characters. -/
theorem C2_bug_eval :
    plainFormat defaultFmt hEmpty ⟨[("msg", PyVal.str "\x1b\x1b[m[m")]⟩ =
      (.ok "\x1b[m", hEmpty) ∧ hasCSI ("\x1b[m".data) = true := by
  constructor
  · have hm : (⟨[("msg", PyVal.str "\x1b\x1b[m[m")]⟩ : LogRecord).getAttr "msg" =
        some (.str "\x1b\x1b[m[m") := rfl
    simp only [plainFormat, hm, plainProcessMsg]
    have hsub : reSubCSI ("\x1b\x1b[m[m".data) = "\x1b[m".data := by
      simp [reSubCSI, csiMatchLen, csiScan, escChar, isCSIFinal]
    rw [hsub, List.take_of_length_le (by decide)]
    rw [formatRecordDefault hEmpty _ _ (getAttrSetAttrSelf _ "msg" _)]
    simp [pyStr, stringMkData]
  · decide

/-- C1 (amended): `ColorFormatter`, `PlainFormatter` and `JsonFormatter`
mutate no shared state at all, and `ProfileFormatter` leaves the record's own
fields and every other heap object unchanged; but when the message is a
mapping, `ProfileFormatter` mutates that shared mapping in place through the
shallow copy (see the counterexample for the mutated slot). -/
theorem C1_no_mutation_amended :
    (∀ fmt h r, (colorFormat fmt h r).2 = h) ∧
    (∀ fmt h r, (plainFormat fmt h r).2 = h) ∧
    (∀ h r, (jsonFormat h r).2 = h) ∧
    (∀ mv h r m, r.getAttr "msg" = some m → (∀ i, m ≠ PyVal.dictRef i) →
      (profileFormat mv h r).2 = h) ∧
    (∀ mv h r i j, r.getAttr "msg" = some (PyVal.dictRef i) → j ≠ i →
      (profileFormat mv h r).2.dicts[j]? = h.dicts[j]?) := by
  refine ⟨?_, ?_, ?_, ?_, ?_⟩
  · intro fmt h r
    rw [colorFormat.eq_def]
    split
    · split <;> rfl
    · rfl
  · intro fmt h r
    rw [plainFormat.eq_def]
    split <;> rfl
  · intro h r
    rw [jsonFormat.eq_def]
    split <;> rfl
  · intro mv h r m hm hnd
    rw [profileSkipNonDict mv h r m hm hnd]
  · intro mv h r i j hm hji
    simp only [profileFormat, hm]
    split
    · rfl
    · split
      · rfl
      · simp only [Heap.setDict]
        exact List.getElem?_set_ne (fun hij => hji hij.symm)

/-- C1 (counterexample): after `ProfileFormatter.format` on a record whose
message is the shared mapping in heap slot 0, that mapping — the object the
original record's `msg` field references — has changed. -/
theorem C1_counterexample :
    (profileFormat 99 ⟨[[("event", PyVal.str "x")]]⟩
        ⟨[("msg", PyVal.dictRef 0), ("created", PyVal.int 1),
          ("module", PyVal.str "m"), ("process", PyVal.int 2),
          ("thread", PyVal.int 3)]⟩).2.dicts[0]?
      ≠ (⟨[[("event", PyVal.str "x")]]⟩ : Heap).dicts[0]? := by
  simp [profileFormat, getAttrs, LogRecord.getAttr, assocLookup, Heap.getDict,
    Heap.setDict, dictUpdate, dictSet]

/-- Witness for the amended C1, applying the heap-frame part at a concrete
record: slot 1 (any slot other than the message's) is untouched. -/
theorem C1_no_mutation_witness :
    (profileFormat 99 ⟨[[("event", PyVal.str "x")]]⟩
        ⟨[("msg", PyVal.dictRef 0), ("created", PyVal.int 1),
          ("module", PyVal.str "m"), ("process", PyVal.int 2),
          ("thread", PyVal.int 3)]⟩).2.dicts[1]?
      = (⟨[[("event", PyVal.str "x")]]⟩ : Heap).dicts[1]? :=
  C1_no_mutation_amended.2.2.2.2 99 _ _ 0 1 rfl (by decide)

/-- C10 (counterexample): a record whose only allow-listed fields are a
non-serializable `msg` object and nothing else — `JsonFormatter.format`
coerces the message to its text representation and succeeds instead of
propagating a serialization error. -/
theorem C10_counterexample :
    jsonFormat hEmpty ⟨[("msg", PyVal.obj 0)]⟩ =
      (.ok "\x7b\"msg\": \"<object 0>\"\x7d", hEmpty) := by
  simp [jsonFormat, jsonMapping, jsonKEYS, LogRecord.getAttr, LogRecord.setAttr,
    assocLookup, dictSet, stripCSI, pyStr, pyRepr, strRepr, reSubCSI, csiMatchLen,
    csiScan, escChar, isCSIFinal, dumpObj, dumpEntries, dumpVal, sortByKey,
    List.insertionSort, List.orderedInsert, jsonQuote, jsonEscapeChar, joinComma,
    reprFuel, Heap.getDict, show toString (0 : Nat) = "0" from rfl]

/-- C10 (amended): when an allow-listed field other than `msg` is present with
a non-serializable object value, `JsonFormatter.format` propagates the default
serialization failure instead of coercing it to a string; the `msg` field
itself is exempt, being always coerced to text first. -/
theorem C10_amended (h : Heap) (r : LogRecord) (k : String) (n : Nat)
    (m : PyVal) (hk : k ∈ jsonKEYS) (hkm : k ≠ "msg")
    (hm : r.getAttr "msg" = some m) (hv : r.getAttr k = some (PyVal.obj n)) :
    ∃ e, (jsonFormat h r).1 = .error e := by
  simp only [jsonFormat, hm]
  have hcr : (r.setAttr "msg"
      (.str (stripCSI (pyStr (reprFuel h) h m)))).getAttr k =
      some (PyVal.obj n) := by
    rw [getAttrSetAttrNe r _ hkm]
    exact hv
  have hmem : (k, PyVal.obj n) ∈
      jsonMapping (r.setAttr "msg" (.str (stripCSI (pyStr (reprFuel h) h m)))) := by
    rw [jsonMapping]
    exact List.mem_filterMap.mpr ⟨k, hk, by rw [hcr]; rfl⟩
  have hsorted : (k, PyVal.obj n) ∈
      sortByKey (jsonMapping (r.setAttr "msg"
        (.str (stripCSI (pyStr (reprFuel h) h m))))) := by
    rw [sortByKey]
    exact ((List.perm_insertionSort _ _).mem_iff).mpr hmem
  obtain ⟨e, he⟩ := dumpEntriesErrOfObj (reprFuel h) h hsorted
  refine ⟨e, ?_⟩
  simp only [dumpObj, he]

/-- Witness for the amended C10: a serializable message plus a
non-serializable `process` value makes the JSON formatter fail. -/
theorem C10_amended_witness :
    ∃ e, (jsonFormat hEmpty
        ⟨[("msg", PyVal.str "hi"), ("process", PyVal.obj 7)]⟩).1 = .error e :=
  C10_amended hEmpty _ "process" 7 (PyVal.str "hi") (by decide) (by decide)
    rfl rfl

/-- The shallow copy `cr` built by `JsonFormatter.format`: the record with its
message replaced by the CSI-stripped text coercion of the original message. -/
def jsonCr (h : Heap) (r : LogRecord) (m : PyVal) : LogRecord :=
  r.setAttr "msg" (PyVal.str (stripCSI (pyStr (reprFuel h) h m)))

/-- C4: `JsonFormatter.format` first coerces the message to its text
representation and strips CSI sequences regardless of its original type, then
serializes exactly the allow-listed fields present on the copied record, with
keys sorted lexicographically; in particular the record with fields
levelname INFO, lineno 42, msg hello renders to exactly the expected
single-line JSON object. -/
theorem C4_json (h : Heap) (r : LogRecord) (m : PyVal)
    (hm : r.getAttr "msg" = some m) :
    ((jsonCr h r m).getAttr "msg" =
        some (PyVal.str (stripCSI (pyStr (reprFuel h) h m))) ∧
      jsonFormat h r = (dumpObj (reprFuel h) h (jsonMapping (jsonCr h r m)), h) ∧
      (sortByKey (jsonMapping (jsonCr h r m))).map Prod.fst =
        List.insertionSort (· ≤ ·)
          (jsonKEYS.filter (fun k => ((jsonCr h r m).getAttr k).isSome)) ∧
      List.Sorted (· ≤ ·)
        ((sortByKey (jsonMapping (jsonCr h r m))).map Prod.fst)) ∧
    jsonFormat hEmpty
        ⟨[("levelname", PyVal.str "INFO"), ("lineno", PyVal.int 42),
          ("msg", PyVal.str "hello")]⟩ =
      (.ok "\x7b\"levelname\": \"INFO\", \"lineno\": 42, \"msg\": \"hello\"\x7d",
       hEmpty) := by
  refine ⟨⟨?_, ?_, ?_, ?_⟩, ?_⟩
  · exact getAttrSetAttrSelf r "msg" _
  · simp only [jsonFormat, hm, jsonCr]
  · rw [mapFstSortByKey, jsonMappingKeys]
  · exact sortedKeysSortByKey _
  · simp +decide [jsonFormat, jsonMapping, jsonKEYS, LogRecord.getAttr,
      LogRecord.setAttr, assocLookup, dictSet, stripCSI, pyStr, reSubCSI,
      csiMatchLen, csiScan, escChar, isCSIFinal, dumpObj, dumpEntries, dumpVal,
      sortByKey, List.insertionSort, List.orderedInsert, jsonQuote,
      jsonEscapeChar, joinComma, reprFuel, Heap.getDict]

/-- Witness for C4 at the three-field record: the coerced-and-stripped message
and the rendered JSON, fully evaluated. -/
theorem C4_json_witness :
    (jsonCr hEmpty
        ⟨[("levelname", PyVal.str "INFO"), ("lineno", PyVal.int 42),
          ("msg", PyVal.str "hello")]⟩ (PyVal.str "hello")).getAttr "msg" =
      some (PyVal.str "hello") ∧
    jsonFormat hEmpty
        ⟨[("levelname", PyVal.str "INFO"), ("lineno", PyVal.int 42),
          ("msg", PyVal.str "hello")]⟩ =
      (.ok "\x7b\"levelname\": \"INFO\", \"lineno\": 42, \"msg\": \"hello\"\x7d",
       hEmpty) := by
  have h4 := C4_json hEmpty
      ⟨[("levelname", PyVal.str "INFO"), ("lineno", PyVal.int 42),
        ("msg", PyVal.str "hello")]⟩ (PyVal.str "hello") rfl
  refine ⟨?_, h4.2⟩
  have hs : stripCSI (pyStr (reprFuel hEmpty) hEmpty (PyVal.str "hello")) =
      "hello" := by
    simp [stripCSI, pyStr, reSubCSI, csiMatchLen, csiScan, escChar, reprFuel,
      stringMkData]
  have h41 := h4.1.1
  rw [hs] at h41
  exact h41

/-- C6: for a record whose message is a structured mapping, `ProfileFormatter`
merges the four record attributes and the memory reading into the mapping and
serializes it with sorted keys; the merged mapping's keys are exactly the
original keys plus created, module, process, thread and memory; in particular
the mapping with single key event gains all five. -/
theorem C6_profile_merge (mv : Int) (h : Heap) (r : LogRecord) (i : Nat)
    (kvs pairs : List (String × PyVal))
    (hm : r.getAttr "msg" = some (.dictRef i))
    (hd : h.getDict i = some kvs)
    (hattrs : getAttrs r ["created", "module", "process", "thread"] = some pairs) :
    (profileFormat mv h r =
        (dumpObj
            (reprFuel (h.setDict i
              (dictSet (dictUpdate kvs pairs) "memory" (.int mv))))
            (h.setDict i (dictSet (dictUpdate kvs pairs) "memory" (.int mv)))
            (dictSet (dictUpdate kvs pairs) "memory" (.int mv)),
          h.setDict i (dictSet (dictUpdate kvs pairs) "memory" (.int mv))) ∧
      (∀ k, k ∈ (dictSet (dictUpdate kvs pairs) "memory" (.int mv)).map Prod.fst ↔
        (k ∈ kvs.map Prod.fst ∨
          k ∈ ["created", "module", "process", "thread", "memory"])) ∧
      List.Sorted (· ≤ ·)
        ((sortByKey (dictSet (dictUpdate kvs pairs) "memory" (.int mv))).map
          Prod.fst)) ∧
    profileFormat 99 ⟨[[("event", PyVal.str "x")]]⟩
        ⟨[("msg", PyVal.dictRef 0), ("created", PyVal.int 1),
          ("module", PyVal.str "m"), ("process", PyVal.int 2),
          ("thread", PyVal.int 3)]⟩ =
      (.ok ("\x7b\"created\": 1, \"event\": \"x\", \"memory\": 99, " ++
          "\"module\": \"m\", \"process\": 2, \"thread\": 3\x7d"),
       ⟨[[("event", PyVal.str "x"), ("created", PyVal.int 1),
          ("module", PyVal.str "m"), ("process", PyVal.int 2),
          ("thread", PyVal.int 3), ("memory", PyVal.int 99)]]⟩) := by
  refine ⟨⟨?_, ?_, ?_⟩, ?_⟩
  · simp only [profileFormat, hm, hd, hattrs]
  · intro k
    rw [memKeysDictSet, memKeysDictUpdate, getAttrsKeys r _ pairs hattrs]
    simp [or_assoc]
  · exact sortedKeysSortByKey _
  · simp +decide [profileFormat, getAttrs, LogRecord.getAttr, assocLookup,
      Heap.getDict, Heap.setDict, dictUpdate, dictSet, dumpObj, dumpEntries,
      dumpVal, sortByKey, List.insertionSort, List.orderedInsert, jsonQuote,
      jsonEscapeChar, joinComma, reprFuel]

/-- Witness for C6 at the mapping with single key event, instantiated at the
key memory: the merged mapping holds it. -/
theorem C6_profile_merge_witness :
    "memory" ∈ (dictSet
        (dictUpdate [("event", PyVal.str "x")]
          [("created", PyVal.int 1), ("module", PyVal.str "m"),
           ("process", PyVal.int 2), ("thread", PyVal.int 3)])
        "memory" (.int 99)).map Prod.fst ↔
      ("memory" ∈ [("event", PyVal.str "x")].map Prod.fst ∨
        "memory" ∈ ["created", "module", "process", "thread", "memory"]) :=
  (C6_profile_merge 99 ⟨[[("event", PyVal.str "x")]]⟩
    ⟨[("msg", PyVal.dictRef 0), ("created", PyVal.int 1),
      ("module", PyVal.str "m"), ("process", PyVal.int 2),
      ("thread", PyVal.int 3)]⟩ 0 [("event", PyVal.str "x")]
    [("created", PyVal.int 1), ("module", PyVal.str "m"),
     ("process", PyVal.int 2), ("thread", PyVal.int 3)]
    rfl rfl (by decide)).1.2.1 "memory"

/-- C7: `ColorFormatter` precompiles one derived template per severity level,
wrapping the whole literal template string in that level's ANSI style codes
(styling wraps the template, not the substituted values), and for every mapped
level `format` returns the style codes, the substituted message content and
the reset suffix. -/
theorem C7_color_styles :
    (∀ fmt lvl sty, mapLookup lvl MAPPING = some sty →
      colorFormatters fmt lvl = some (styleCodes sty ++ fmt ++ resetCode)) ∧
    (∀ h r lvl sty s, mapLookup lvl MAPPING = some sty →
      r.getAttr "levelno" = some (.int lvl) →
      r.getAttr "msg" = some (.str s) →
      colorFormat defaultFmt h r =
        (.ok (styleCodes sty ++ s ++ resetCode), h)) := by
  constructor
  · intro fmt lvl sty hmap
    simp [colorFormatters, hmap, colored]
  · intro h r lvl sty s hmap hl hm
    have hcf : colorFormatters defaultFmt lvl = some (colored defaultFmt sty) := by
      simp [colorFormatters, hmap]
    simp only [colorFormat, hl, hcf]
    have hnp : ∀ c ∈ (styleCodes sty).data, c ≠ '%' := by
      have hall : ∀ p ∈ MAPPING, ∀ c ∈ (styleCodes p.2).data, c ≠ '%' := by
        decide
      exact hall _ (mapLookupMem hmap)
    have hrs : ∀ c ∈ resetCode.data, c ≠ '%' := by decide
    rw [show colored defaultFmt sty =
      styleCodes sty ++ defaultFmt ++ resetCode from rfl]
    rw [formatRecordWrapped _ _ h r _ hnp hrs hm]
    simp [pyStr]

/-- Witness for C7 at the SUCCESS level (25, green). -/
theorem C7_color_styles_witness :
    colorFormat defaultFmt hEmpty
        ⟨[("levelno", PyVal.int 25), ("msg", PyVal.str "ok")]⟩ =
      (.ok "\x1b[32mok\x1b[0m", hEmpty) := by
  have h7 := C7_color_styles.2 hEmpty
      ⟨[("levelno", PyVal.int 25), ("msg", PyVal.str "ok")]⟩
      25 ⟨some "green", []⟩ "ok" (by decide) rfl rfl
  rw [h7]
  rw [show styleCodes ⟨some "green", []⟩ ++ "ok" ++ resetCode =
    "\x1b[32mok\x1b[0m" from by decide]

end JinaLog
